import Mathlib

/-!
# http_util: request builder and retry loop

A shallow embedding of `src/http_util/http_util.go`.

* Go maps (`Data`, `http.Header`) are association lists whose keys are
  distinct; the order in which `range` visits a map is chosen by the Go
  runtime, so every `range` takes a `RangeOrder`, an arbitrary permutation.
* Everything outside the repository (the network, the multipart writer's
  random boundary, header canonicalisation, `http.NewRequest` validation) is
  a parameter: `GoEnv` for the pure library functions, `Attempt` for what one
  iteration of the retry loop observes.
* `uint`/`int` are `Nat`/`Int` with explicit wrap-around at `uintBits` bits,
  `time.Duration` is an `Int` number of nanoseconds wrapped to 64 bits.
* `Send` records a trace of attempts and sleeps, and threads the receiver
  through the loop, so that what it did can be stated.
-/

namespace HttpUtil

/-! ## Data model -/

/-- Go `type Data map[string]string`: an association list with distinct keys;
the nil map and the empty map are both `[]`. -/
abbrev Data := List (String × String)

/-- The representation invariant of a Go map: no key occurs twice. -/
@[reducible] def Data.WF (d : Data) : Prop := (d.map Prod.fst).Nodup

/-- The order in which one `range` statement visits the entries of a map:
some permutation of the entries. -/
structure RangeOrder where
  order : {α : Type} → List α → List α
  perm : ∀ {α : Type} (l : List α), (order l).Perm l

/-- Map assignment `d[k] = v`. -/
def Data.set (d : Data) (k v : String) : Data :=
  if d.any (fun e => e.1 == k) then d.map (fun e => if e.1 == k then (k, v) else e)
  else d ++ [(k, v)]

/-- Go `func (d *Data) Copy() Data`: a fresh map filled by ranging over `d`. -/
def Data.Copy (rng : RangeOrder) (d : Data) : Data :=
  (rng.order d).foldl (fun newData kv => newData.set kv.1 kv.2) []

def FormData : String := "multipart/form-data"

def Urlencoded : String := "application/x-www-form-urlencoded"

structure Body where
  ContentType : String := ""
  Data : Data := []
  StrData : String := ""

/-- Go `type Response struct`; the zero value has nil body and nil maps. -/
structure Response where
  Body : List UInt8 := []
  Cookies : Data := []
  Headers : Data := []
deriving DecidableEq

/-- Go `type Client struct`. Pointers that may be nil are `Option`s;
`Timeout` is a `time.Duration` in nanoseconds, `ReTry` a `uint`. -/
structure Client where
  Url : String
  Method : String
  QueryParams : Data
  Headers : Data
  Body : Body
  Response : Option Response := none
  Timeout : Int
  ReTry : Nat
  ReCheck : Option HttpUtil.Response → Bool

def DefaultReCheck (_res : Option Response) : Bool := true

def NewClient (url : String) (method : String) : Client :=
  { Url := url
    Method := method
    QueryParams := []
    Headers := []
    Body := {}
    Timeout := 10 * 1000000000
    ReTry := 0
    ReCheck := DefaultReCheck }

/-! ## The world outside the repository -/

/-- Go `http.Header`, a `map[string][]string` keyed by canonical names. -/
abbrev Header := List (String × List String)

/-- Go `Header.Add`: append `value` to the values stored under the canonical key. -/
def Header.Add (canon : String → String) (h : Header) (key value : String) : Header :=
  if h.any (fun e => e.1 == canon key) then
    h.map (fun e => if e.1 == canon key then (e.1, e.2 ++ [value]) else e)
  else h ++ [(canon key, [value])]

/-- Go `Header.Set`: replace the values stored under the canonical key by `[value]`. -/
def Header.Set (canon : String → String) (h : Header) (key value : String) : Header :=
  if h.any (fun e => e.1 == canon key) then
    h.map (fun e => if e.1 == canon key then (e.1, [value]) else e)
  else h ++ [(canon key, [value])]

/-- Go `Header.Get`: the first value stored under the canonical key, `""` if none. -/
def Header.Get (canon : String → String) (h : Header) (key : String) : String :=
  match h.find? (fun e => e.1 == canon key) with
  | some (_, v :: _) => v
  | _ => ""

/-- Go `*http.Request`, as far as `send` fills it in. -/
structure Request where
  Method : String
  Url : String
  Body : String
  Header : Header
deriving DecidableEq

/-- Go `*http.Response`, as far as `NewResponse` reads it: the body stream
(which `ioutil.ReadAll` reads to the end or fails on), the parsed cookies as
(name, value) pairs in order, and the header map. -/
structure HttpResponse where
  Body : Except String (List UInt8)
  Cookies : List (String × String)
  Header : List (String × List String)

/-- Where an error returned by `send` was produced. -/
inductive Error
  | construction (msg : String)
  | transport (msg : String)
  | read (msg : String)
deriving DecidableEq

/-- The pure parts of the Go toolchain and standard library the code calls. -/
structure GoEnv where
  /-- Width of `uint` and `int` (32 or 64). -/
  uintBits : Nat
  /-- Go `textproto.CanonicalMIMEHeaderKey`. -/
  canon : String → String
  /-- The error of `http.NewRequest(method, url, _)`, `none` when it succeeds. -/
  newRequestError : String → String → Option String
  /-- What a `multipart.Writer` with the given boundary has written after
  `WriteField` on each pair in turn and `Close`. -/
  multipartBody : String → List (String × String) → String
  /-- Go `Writer.FormDataContentType` for the given boundary. -/
  formDataContentType : String → String
  /-- The conversion `time.Duration(math.Pow(2, float64(i)))` for `i ≥ 63`,
  where the float is out of the range of `int64` and the result depends on
  the implementation. -/
  hugePow : Int → Int

/-- What one iteration of the retry loop observes from outside: the order of
each `range` it executes, the multipart writer's random boundary and the
outcome of `client.Do`. -/
structure Attempt where
  copyQueryParams : RangeOrder
  copyHeaders : RangeOrder
  copyData : RangeOrder
  linkQuery : RangeOrder
  bodyData : RangeOrder
  addHeaders : RangeOrder
  respHeader : RangeOrder
  boundary : String
  /-- `client.Do(req)` with `client.Timeout` set to the first argument. -/
  Do : Int → Request → Except String HttpResponse

/-! ## Machine integers -/

/-- Conversion `int(x)` of a `uint` value `x < 2 ^ w`. -/
def uintToInt (w : Nat) (x : Nat) : Int :=
  if x < 2 ^ (w - 1) then (x : Int) else (x : Int) - 2 ^ w

/-- Wrap-around of `int64` arithmetic. -/
def wrapInt64 (x : Int) : Int := (x + 2 ^ 63) % 2 ^ 64 - 2 ^ 63

/-! ## Operations -/

/-- Go `func (c *Client) Copy() Client`; the `Response` field is left nil. -/
def Client.Copy (w : Attempt) (c : Client) : Client :=
  { Url := c.Url
    Method := c.Method
    QueryParams := Data.Copy w.copyQueryParams c.QueryParams
    Headers := Data.Copy w.copyHeaders c.Headers
    Body :=
      { ContentType := c.Body.ContentType
        Data := Data.Copy w.copyData c.Body.Data
        StrData := c.Body.StrData }
    Timeout := c.Timeout
    ReTry := c.ReTry
    ReCheck := c.ReCheck }

/-- Go `func linkData(data Data) string`. -/
def linkData (rng : RangeOrder) (data : Data) : String :=
  "&".intercalate ((rng.order data).foldl (fun items kv => items ++ [kv.1 ++ "=" ++ kv.2]) [])

/-- Go `func (c *Client) getQueryUrl() string`. -/
def Client.getQueryUrl (rng : RangeOrder) (c : Client) : String :=
  if c.QueryParams.length > 0 then c.Url ++ "?" ++ linkData rng c.QueryParams
  else c.Url

/-- Go `func (c *Client) serializeBody() string`: the receiver after the call
and the returned body. -/
def Client.serializeBody (env : GoEnv) (w : Attempt) (c : Client) : Client × String :=
  let r : String × String :=
    if c.Body.ContentType = Urlencoded then
      (Urlencoded, linkData w.bodyData c.Body.Data)
    else if c.Body.ContentType = FormData then
      (env.formDataContentType w.boundary,
        env.multipartBody w.boundary (w.bodyData.order c.Body.Data))
    else
      ("", c.Body.StrData)
  ({ c with Body := { c.Body with ContentType := r.1 } }, r.2)

/-- Go `func NewResponse(httpRes *http.Response) (*Response, error)`. -/
def NewResponse (rng : RangeOrder) (httpRes : HttpResponse) : Option Response × Option Error :=
  match httpRes.Body with
  | .error e => (none, some (Error.read e))
  | .ok body =>
    (some
      { Body := body
        Cookies := httpRes.Cookies.foldl (fun m ck => m.set ck.1 ck.2) []
        Headers := (rng.order httpRes.Header).foldl
          (fun m kv => m.set kv.1 (";".intercalate kv.2)) [] },
     none)

/-- Lines 133-144 of `send`: the receiver after `serializeBody`, and either the
error of `http.NewRequest` or the request handed to `client.Do`. -/
def Client.buildRequest (env : GoEnv) (w : Attempt) (c : Client) : Client × Except String Request :=
  let url := c.getQueryUrl w.linkQuery
  let sb := c.serializeBody env w
  let c1 := sb.1
  match env.newRequestError c1.Method url with
  | some e => (c1, .error e)
  | none =>
    let hdr := (w.addHeaders.order c1.Headers).foldl
      (fun h kv => Header.Add env.canon h kv.1 kv.2) []
    (c1, .ok
      { Method := c1.Method
        Url := url
        Body := sb.2
        Header := Header.Set env.canon hdr "Content-Type" c1.Body.ContentType })

/-- Go `func (c *Client) send() (*Response, error)`: the receiver after the
call, and the returned pair. `recover()` is called outside a deferred
function, so it returns nil and its branch is never taken. -/
def Client.send (env : GoEnv) (w : Attempt) (c : Client) :
    Client × Option HttpUtil.Response × Option Error :=
  let br := c.buildRequest env w
  match br.2 with
  | .error e => (br.1, none, some (Error.construction e))
  | .ok req =>
    match w.Do br.1.Timeout req with
    | .error e => (br.1, none, some (Error.transport e))
    | .ok httpRes => (br.1, NewResponse w.respHeader httpRes)

/-- Go `func binaryExponentialBackOff(i int) time.Duration`, in nanoseconds.
`math.Pow(2, float64(i))` is exactly `2 ^ i` and converts exactly for
`0 ≤ i ≤ 62`; for `i < 0` it is below 1 and truncates to 0. The diagnostic
`fmt.Println` is left out. -/
def binaryExponentialBackOff (env : GoEnv) (i : Int) : Int :=
  let k : Int := if i < 0 then 0 else if i ≤ 62 then 2 ^ i.toNat else env.hugePow i
  let baseTime : Int := 50 * 1000000
  wrapInt64 (k * baseTime)

/-- What `Send` does, in order. -/
inductive Event
  /-- Iteration `i` called `send` on the copy `start`, which left the copy as
  `finish` and returned `(res, err)`. -/
  | attempt (i : Int) (start finish : Client) (res : Option Response) (err : Option Error)
  /-- A call of `time.Sleep` with the given duration. -/
  | sleep (d : Int)

def Event.isAttempt : Event → Bool
  | .attempt .. => true
  | .sleep _ => false

def Event.isSleep : Event → Bool
  | .attempt .. => false
  | .sleep _ => true

/-- The state of a `Send` call: the receiver `*c`, the locals `res` and `err`,
and the trace so far. -/
structure SendState where
  c : Client
  res : Option Response
  err : Option Error
  trace : List Event

/-- The loop bound `int(c.ReTry+1)`: the sum wraps as a `uint`, the
conversion to `int` reinterprets the bits. -/
def loopBound (env : GoEnv) (c : Client) : Int :=
  uintToInt env.uintBits ((c.ReTry + 1) % 2 ^ env.uintBits)

/-- One iteration of the loop body of `Send` at index `i`: the new state, and
whether the loop was left by `break`. -/
def Client.sendStep (env : GoEnv) (world : Nat → Attempt) (i : Int) (st : SendState) :
    SendState × Bool :=
  let client := st.c.Copy (world i.toNat)
  let r := client.send env (world i.toNat)
  let st1 : SendState :=
    { c := st.c, res := r.2.1, err := r.2.2,
      trace := st.trace ++ [Event.attempt i client r.1 r.2.1 r.2.2] }
  if r.2.2.isNone && r.1.ReCheck r.2.1 then (st1, true)
  else
    ({ st1 with trace := st1.trace ++ [Event.sleep (binaryExponentialBackOff env i)] }, false)

/-- The loop `for i := ...; i < int(c.ReTry+1); i++` of `Send`, entered with
index `i`; the first argument bounds the number of iterations and is chosen
by `Send` so that it is never the reason the loop stops. The index cannot
overflow: it is incremented only when it is below the bound. -/
def Client.sendLoop (env : GoEnv) (world : Nat → Attempt) : Nat → Int → SendState → SendState
  | 0, _, st => st
  | fuel + 1, i, st =>
    if i < loopBound env st.c then
      let s := Client.sendStep env world i st
      if s.2 then s.1 else Client.sendLoop env world fuel (i + 1) s.1
    else st

/-- Go `func (c *Client) Send() (*Response, error)`. -/
def Client.Send (env : GoEnv) (world : Nat → Attempt) (c : Client) : SendState :=
  Client.sendLoop env world (loopBound env c).toNat 0
    { c := c, res := some {}, err := none, trace := [] }

/-- What attempt number `j` (0-based) of a `Send` on `c` does: `send` on a
fresh copy of `c`, in the world of that attempt. -/
def outcome (env : GoEnv) (world : Nat → Attempt) (c : Client) (j : Nat) :
    Client × Option Response × Option Error :=
  Client.send env (world j) (c.Copy (world j))

/-- The test `err == nil && client.ReCheck(res)` after attempt number `j`. -/
def accepted (env : GoEnv) (world : Nat → Attempt) (c : Client) (j : Nat) : Bool :=
  (outcome env world c j).2.2.isNone &&
    (outcome env world c j).1.ReCheck (outcome env world c j).2.1

/-- The trace entry of attempt number `j`. -/
def attemptEvent (env : GoEnv) (world : Nat → Attempt) (c : Client) (j : Nat) : Event :=
  Event.attempt j (c.Copy (world j)) (outcome env world c j).1
    (outcome env world c j).2.1 (outcome env world c j).2.2

/-- The trace of `m` consecutive attempts from number `n` on, none of which is
accepted: each attempt is followed by its backoff sleep. -/
def failTrace (env : GoEnv) (world : Nat → Attempt) (c : Client) : Nat → Nat → List Event
  | _, 0 => []
  | n, m + 1 =>
    attemptEvent env world c n :: Event.sleep (binaryExponentialBackOff env n) ::
      failTrace env world c (n + 1) m

/-- Number of calls of `send` in a trace. -/
def attempts (t : List Event) : Nat := (t.filter Event.isAttempt).length

/-- Number of calls of `time.Sleep` in a trace. -/
def sleeps (t : List Event) : Nat := (t.filter Event.isSleep).length

/-! ## Concrete worlds used to evaluate the definitions -/

/-- Maps are visited in the order they are stored. -/
def RangeOrder.stored : RangeOrder :=
  ⟨fun l => l, fun l => List.Perm.refl l⟩

/-- Maps are visited in the reverse of the order they are stored. -/
def RangeOrder.reversed : RangeOrder :=
  ⟨fun l => l.reverse, fun l => List.reverse_perm l⟩

/-- A 64-bit platform. `http.NewRequest` rejects the method `BAD METHOD` (a
method must be a token) and the URL `http://[::1` (unclosed bracket) and
accepts the other methods and URLs used below; header keys are taken as
canonical already; the multipart encoding is a shortened stand-in. It serves
to evaluate examples; the general theorems hold for every `GoEnv`. -/
def env64 : GoEnv :=
  { uintBits := 64
    canon := fun k => k
    newRequestError := fun method url =>
      if method = "BAD METHOD" then some "net/http: invalid method"
      else if url = "http://[::1" then some "parse: missing closing bracket in host"
      else none
    multipartBody := fun b fields =>
      String.join (fields.map (fun kv => "--" ++ b ++ " " ++ kv.1 ++ ": " ++ kv.2 ++ " ")) ++
        "--" ++ b ++ "--"
    formDataContentType := fun b => "multipart/form-data; boundary=" ++ b
    hugePow := fun _ => 0 }

/-- An attempt whose `client.Do` is answered by `answer`. -/
def attemptWith (answer : Except String HttpResponse) : Attempt :=
  { copyQueryParams := RangeOrder.stored
    copyHeaders := RangeOrder.stored
    copyData := RangeOrder.stored
    linkQuery := RangeOrder.reversed
    bodyData := RangeOrder.stored
    addHeaders := RangeOrder.stored
    respHeader := RangeOrder.stored
    boundary := "b0"
    Do := fun _ _ => answer }

/-- An endpoint that refuses every connection. -/
def worldDown : Nat → Attempt :=
  fun _ => attemptWith (.error "connection refused")

/-- The response with the given body bytes and no cookies or headers. -/
def httpOk (body : List UInt8) : HttpResponse :=
  { Body := .ok body, Cookies := [], Header := [] }

/-- An endpoint that answers attempt number `j` (0-based) with the one-byte body `j`. -/
def worldCounting : Nat → Attempt :=
  fun j => attemptWith (.ok (httpOk [UInt8.ofNat j]))

/-- The configuration of `src/demo.go`. -/
def demoClient : Client :=
  { NewClient "http://hmzp.ex4.ink:10080/put_offer_apply/" "POST" with
    Timeout := 500 * 1000000
    ReTry := 5
    Body := { ContentType := FormData, Data := [("job_id", "2")] } }

/-- A predicate that accepts only the response whose body is the single byte 2,
which `worldCounting` gives to the third attempt. -/
def thirdOnly (res : Option Response) : Bool :=
  match res with
  | some r => decide (r.Body = [2])
  | none => false

/-- The demo configuration with the predicate `thirdOnly`. -/
def pickyClient : Client := { demoClient with ReCheck := thirdOnly }

/-- A configuration whose `ReTry + 1` is `2^63`, one more than the largest `int`
of a 64-bit platform. -/
def wrapClient : Client :=
  { NewClient "http://127.0.0.1:9/" "GET" with ReTry := 9223372036854775807 }

/-- The usage demo in the comment at the top of the source, with a second
query parameter whose value holds "&" and "=". -/
def queryClient : Client :=
  { NewClient "http://www.baidu.com" "POST" with
    QueryParams := [("test", "test"), ("q", "a&b=c")] }

/-- A raw JSON body sent with a caller-set `Content-Type` header. -/
def jsonClient : Client :=
  { NewClient "http://127.0.0.1:9/" "POST" with
    Headers := [("Content-Type", "application/json")]
    Body := { StrData := "\x7b\x7d" } }

/-! ## Helper lemmas -/

theorem foldl_items (l : Data) (acc : List String) :
    l.foldl (fun items kv => items ++ [kv.1 ++ "=" ++ kv.2]) acc =
      acc ++ l.map (fun kv => kv.1 ++ "=" ++ kv.2) := by
  induction l generalizing acc with
  | nil => simp
  | cons a l ih => simp [List.foldl_cons, ih]

theorem linkData_eq (rng : RangeOrder) (data : Data) :
    linkData rng data =
      "&".intercalate ((rng.order data).map (fun kv => kv.1 ++ "=" ++ kv.2)) := by
  simp [linkData, foldl_items]

theorem order_nil (rng : RangeOrder) {α : Type} : rng.order ([] : List α) = [] :=
  List.Perm.eq_nil (rng.perm [])

/-! ## Query string and body serialization -/

/-- C9: `getQueryUrl` returns the base URL unchanged for an empty (or nil) map,
and otherwise base + "?" + the entries of a permutation of the map, each
rendered as key, "=", value with nothing escaped, joined by "&", whatever the
iteration order. -/
theorem getQueryUrl_spec (rng : RangeOrder) (c : Client) :
    ∃ pairs : List (String × String), pairs.Perm c.QueryParams ∧
      c.getQueryUrl rng =
        if c.QueryParams = [] then c.Url
        else c.Url ++ "?" ++ "&".intercalate (pairs.map (fun kv => kv.1 ++ "=" ++ kv.2)) := by
  refine ⟨rng.order c.QueryParams, rng.perm _, ?_⟩
  unfold Client.getQueryUrl
  by_cases h : c.QueryParams = []
  · simp [h]
  · have hpos : c.QueryParams.length > 0 := List.length_pos.mpr h
    simp [h, hpos, linkData_eq]

/-- The commented usage demo of the source with a query map: two parameters
visited in reverse order, one value holding "&" and "=" that go out unescaped;
and no parameters. -/
theorem getQueryUrl_spec_witness :
    (∃ pairs : List (String × String), pairs.Perm queryClient.QueryParams ∧
      queryClient.getQueryUrl RangeOrder.reversed =
        if queryClient.QueryParams = [] then queryClient.Url
        else queryClient.Url ++ "?" ++
          "&".intercalate (pairs.map (fun kv => kv.1 ++ "=" ++ kv.2))) ∧
    queryClient.getQueryUrl RangeOrder.reversed = "http://www.baidu.com?q=a&b=c&test=test" ∧
    queryClient.getQueryUrl RangeOrder.stored = "http://www.baidu.com?test=test&q=a&b=c" ∧
    (NewClient "http://www.baidu.com" "POST").getQueryUrl RangeOrder.reversed
      = "http://www.baidu.com" :=
  ⟨getQueryUrl_spec RangeOrder.reversed queryClient, by decide, by decide, by decide⟩

/-- C8: with content type `application/x-www-form-urlencoded`, `serializeBody`
returns the entries of a permutation of `Body.Data`, each rendered as key, "=",
value with nothing escaped, joined by "&" (the empty string for an empty map),
whatever `StrData` is, and leaves the
stored content type equal to `application/x-www-form-urlencoded`. -/
theorem serializeBody_urlencoded (env : GoEnv) (w : Attempt) (c : Client)
    (h : c.Body.ContentType = Urlencoded) :
    (∃ pairs : List (String × String), pairs.Perm c.Body.Data ∧
      (c.serializeBody env w).2 =
        "&".intercalate (pairs.map (fun kv => kv.1 ++ "=" ++ kv.2))) ∧
    (c.Body.Data = [] → (c.serializeBody env w).2 = "") ∧
    (∀ s : String,
      (Client.serializeBody env w { c with Body := { c.Body with StrData := s } }).2 =
        (c.serializeBody env w).2) ∧
    (c.serializeBody env w).1.Body.ContentType = Urlencoded := by
  refine ⟨⟨w.bodyData.order c.Body.Data, w.bodyData.perm _, ?_⟩, ?_, ?_, ?_⟩
  · simp [Client.serializeBody, h, linkData_eq]
  · intro hd
    simp [Client.serializeBody, h, linkData_eq, hd, order_nil]
    rfl
  · intro s
    simp [Client.serializeBody, h]
  · simp [Client.serializeBody, h]

/-- The form body of the demo data `job_id = 2`, sent url-encoded, is
`job_id=2` with content type `application/x-www-form-urlencoded`. -/
theorem serializeBody_urlencoded_witness :
    (Client.serializeBody env64 (worldDown 0)
        { demoClient with Body := { ContentType := Urlencoded, Data := [("job_id", "2")] } }).2
      = "job_id=2" ∧
    (Client.serializeBody env64 (worldDown 0)
        { demoClient with Body :=
            { ContentType := Urlencoded, Data := [("a b", "x&y"), ("k", "v=w")],
              StrData := "ignored" } }).2
      = "a b=x&y&k=v=w" ∧
    (Client.serializeBody env64 (worldDown 0)
        { demoClient with Body := { ContentType := Urlencoded, Data := [("job_id", "2")] } }
      ).1.Body.ContentType = "application/x-www-form-urlencoded" :=
  ⟨by decide, by decide,
   (serializeBody_urlencoded env64 (worldDown 0)
      { demoClient with Body := { ContentType := Urlencoded, Data := [("job_id", "2")] } }
      (by decide)).2.2.2⟩

/-! ## Backoff -/

/-- For attempt indices 0 to 37 the backoff is exactly 50 ms * 2^i. -/
theorem backoff_exact (env : GoEnv) (i : Int) (h0 : 0 ≤ i) (h1 : i ≤ 37) :
    binaryExponentialBackOff env i = 50000000 * 2 ^ i.toNat := by
  obtain ⟨n, rfl⟩ := Int.eq_ofNat_of_zero_le h0
  have hn : n ≤ 37 := by omega
  interval_cases n <;> rfl

/-- C4: at attempt index 38 the product `2^38 * 50ms` exceeds the range of
`time.Duration` and wraps: the backoff is negative, not 50 ms * 2^38, and
smaller than the backoff at index 37. -/
theorem backoff_38_wraps :
    binaryExponentialBackOff env64 38 = -4702848726509551616 ∧
    binaryExponentialBackOff env64 38 ≠ 50000000 * 2 ^ 38 ∧
    binaryExponentialBackOff env64 38 < binaryExponentialBackOff env64 37 := by
  have h : binaryExponentialBackOff env64 38 = -4702848726509551616 := by rfl
  have h2 : binaryExponentialBackOff env64 37 = 6871947673600000000 := by rfl
  refine ⟨h, ?_, ?_⟩
  · rw [h]; decide
  · rw [h, h2]; decide

/-- C4, amended: for every attempt index `0 ≤ i ≤ 37` the backoff is exactly
50 ms * 2^i (50,000,000 * 2^i nanoseconds), larger than the backoff of every
earlier index; it is 50 ms at index 0 and 400 ms at index 3. -/
theorem backoff_upto_37 (env : GoEnv) (i : Int) (h0 : 0 ≤ i) (h1 : i ≤ 37) :
    binaryExponentialBackOff env i = 50000000 * 2 ^ i.toNat ∧
    (∀ j : Int, 0 ≤ j → j < i →
      binaryExponentialBackOff env j < binaryExponentialBackOff env i) ∧
    binaryExponentialBackOff env 0 = 50000000 ∧
    binaryExponentialBackOff env 3 = 400000000 := by
  refine ⟨backoff_exact env i h0 h1, ?_, by rfl, by rfl⟩
  intro j hj0 hji
  rw [backoff_exact env i h0 h1, backoff_exact env j hj0 (by omega)]
  have hlt : j.toNat < i.toNat := by omega
  have hpow : (2 : Int) ^ j.toNat < 2 ^ i.toNat :=
    pow_lt_pow_right₀ (by norm_num) hlt
  omega

/-- At index 3 the backoff is 400 ms, above the 50, 100 and 200 ms before it. -/
theorem backoff_upto_37_witness :
    binaryExponentialBackOff env64 3 = 50000000 * 2 ^ (3 : Int).toNat ∧
    (∀ j : Int, 0 ≤ j → j < 3 →
      binaryExponentialBackOff env64 j < binaryExponentialBackOff env64 3) ∧
    binaryExponentialBackOff env64 0 = 50000000 ∧
    binaryExponentialBackOff env64 3 = 400000000 :=
  backoff_upto_37 env64 3 (by decide) (by decide)

/-! ## The retry loop -/

theorem sendStep_eq (env : GoEnv) (world : Nat → Attempt) (n : Nat) (st : SendState) :
    Client.sendStep env world (n : Int) st =
      if accepted env world st.c n then
        ({ c := st.c, res := (outcome env world st.c n).2.1,
           err := (outcome env world st.c n).2.2,
           trace := st.trace ++ [attemptEvent env world st.c n] }, true)
      else
        ({ c := st.c, res := (outcome env world st.c n).2.1,
           err := (outcome env world st.c n).2.2,
           trace := st.trace ++ [attemptEvent env world st.c n] ++
             [Event.sleep (binaryExponentialBackOff env n)] }, false) := by
  simp only [Client.sendStep, accepted, outcome, attemptEvent, Int.toNat_ofNat]

theorem sendLoop_succ (env : GoEnv) (world : Nat → Attempt) (fuel : Nat) (i : Int)
    (st : SendState) :
    Client.sendLoop env world (fuel + 1) i st =
      if i < loopBound env st.c then
        if (Client.sendStep env world i st).2 then (Client.sendStep env world i st).1
        else Client.sendLoop env world fuel (i + 1) (Client.sendStep env world i st).1
      else st := rfl

theorem sendStep_c (env : GoEnv) (world : Nat → Attempt) (i : Int) (st : SendState) :
    (Client.sendStep env world i st).1.c = st.c := by
  simp only [Client.sendStep]
  split <;> rfl

/-- The loop never assigns to the receiver. -/
theorem sendLoop_c (env : GoEnv) (world : Nat → Attempt) :
    ∀ (fuel : Nat) (i : Int) (st : SendState),
      (Client.sendLoop env world fuel i st).c = st.c := by
  intro fuel
  induction fuel with
  | zero => intro i st; rfl
  | succ f ih =>
    intro i st
    rw [sendLoop_succ]
    split
    · split
      · exact sendStep_c env world i st
      · rw [ih, sendStep_c]
    · rfl

/-- The iteration bound `Send` passes to the loop is never what stops it: any
larger bound gives the same run. -/
theorem sendLoop_fuel (env : GoEnv) (world : Nat → Attempt) :
    ∀ (fuel : Nat) (i : Int) (st : SendState),
      (loopBound env st.c - i).toNat ≤ fuel → ∀ extra : Nat,
      Client.sendLoop env world (fuel + extra) i st = Client.sendLoop env world fuel i st := by
  intro fuel
  induction fuel with
  | zero =>
    intro i st h extra
    have hi : ¬ i < loopBound env st.c := by omega
    cases extra with
    | zero => rfl
    | succ e => rw [Nat.zero_add, sendLoop_succ, if_neg hi]; rfl
  | succ f ih =>
    intro i st h extra
    have e1 : f + 1 + extra = (f + extra) + 1 := by omega
    rw [e1, sendLoop_succ, sendLoop_succ]
    split
    · split
      · rfl
      · apply ih
        rw [sendStep_c]
        omega
    · rfl

/-- `Send` runs its loop to the end: more iterations allowed change nothing. -/
theorem Send_fuel (env : GoEnv) (world : Nat → Attempt) (c : Client) (extra : Nat) :
    Client.sendLoop env world ((loopBound env c).toNat + extra) 0
        { c := c, res := some {}, err := none, trace := [] } = c.Send env world :=
  sendLoop_fuel env world (loopBound env c).toNat 0
    { c := c, res := some {}, err := none, trace := [] } (by simp) extra

/-- A run of `m + 1` attempts from number `n` on, none accepted and all below
the loop bound: the loop performs them, each followed by its sleep, and goes on
at index `n + m + 1` with the pair of the last of them. -/
theorem sendLoop_fail (env : GoEnv) (world : Nat → Attempt) (c : Client) :
    ∀ (m fuel n : Nat) (st : SendState), st.c = c →
      ((n + m : Nat) : Int) < loopBound env c →
      (∀ j, n ≤ j → j ≤ n + m → accepted env world c j = false) →
      Client.sendLoop env world (fuel + (m + 1)) (n : Int) st =
        Client.sendLoop env world fuel ((n + m + 1 : Nat) : Int)
          { c := c, res := (outcome env world c (n + m)).2.1,
            err := (outcome env world c (n + m)).2.2,
            trace := st.trace ++ failTrace env world c n (m + 1) } := by
  intro m
  induction m with
  | zero =>
    intro fuel n st hc hb hf
    have hlt : (n : Int) < loopBound env st.c := by rw [hc]; simpa using hb
    have hacc : accepted env world st.c n = false := by rw [hc]; exact hf n (le_refl _) (by omega)
    have : fuel + (0 + 1) = fuel + 1 := by omega
    rw [this, sendLoop_succ, if_pos hlt, sendStep_eq, hacc]
    simp [failTrace, hc]
  | succ m ih =>
    intro fuel n st hc hb hf
    have hlt : (n : Int) < loopBound env st.c := by rw [hc]; omega
    have hacc : accepted env world st.c n = false := by rw [hc]; exact hf n (le_refl _) (by omega)
    have e1 : fuel + (m + 1 + 1) = (fuel + (m + 1)) + 1 := by omega
    rw [e1, sendLoop_succ, if_pos hlt, sendStep_eq, hacc]
    simp only [Bool.false_eq_true, if_false]
    have e2 : ((n : Int) + 1) = ((n + 1 : Nat) : Int) := by push_cast; rfl
    have e3 : n + 1 + m = n + (m + 1) := by omega
    rw [e2]
    refine Eq.trans (ih fuel (n + 1) _ hc (by rw [e3]; exact hb)
      (fun j h1 h2 => hf j (by omega) (by omega))) ?_
    simp [failTrace, e3, hc]

/-- An accepted attempt below the loop bound ends the loop by `break`, with
no sleep. -/
theorem sendLoop_accept (env : GoEnv) (world : Nat → Attempt) (c : Client)
    (fuel n : Nat) (st : SendState) (hc : st.c = c) (hb : (n : Int) < loopBound env c)
    (ha : accepted env world c n = true) :
    Client.sendLoop env world (fuel + 1) (n : Int) st =
      { c := c, res := (outcome env world c n).2.1, err := (outcome env world c n).2.2,
        trace := st.trace ++ [attemptEvent env world c n] } := by
  have hlt : (n : Int) < loopBound env st.c := by rw [hc]; exact hb
  have hacc : accepted env world st.c n = true := by rw [hc]; exact ha
  rw [sendLoop_succ, if_pos hlt, sendStep_eq, hacc]
  simp [hc]

theorem attempts_append (s t : List Event) : attempts (s ++ t) = attempts s + attempts t := by
  simp [attempts]

theorem sleeps_append (s t : List Event) : sleeps (s ++ t) = sleeps s + sleeps t := by
  simp [sleeps]

theorem attempts_failTrace (env : GoEnv) (world : Nat → Attempt) (c : Client) :
    ∀ (m n : Nat), attempts (failTrace env world c n m) = m := by
  intro m
  induction m with
  | zero => intro n; rfl
  | succ m ih =>
    intro n
    have := ih (n + 1)
    simp only [attempts] at this ⊢
    simp [failTrace, attemptEvent, Event.isAttempt, this]

theorem sleeps_failTrace (env : GoEnv) (world : Nat → Attempt) (c : Client) :
    ∀ (m n : Nat), sleeps (failTrace env world c n m) = m := by
  intro m
  induction m with
  | zero => intro n; rfl
  | succ m ih =>
    intro n
    have := ih (n + 1)
    simp only [sleeps] at this ⊢
    simp [failTrace, attemptEvent, Event.isSleep, this]

theorem loopBound_of_fits (env : GoEnv) (c : Client)
    (hfit : c.ReTry + 1 < 2 ^ (env.uintBits - 1)) :
    loopBound env c = ((c.ReTry + 1 : Nat) : Int) := by
  have hle : 2 ^ (env.uintBits - 1) ≤ 2 ^ env.uintBits :=
    Nat.pow_le_pow_right (by decide) (Nat.sub_le _ _)
  have hmod : (c.ReTry + 1) % 2 ^ env.uintBits = c.ReTry + 1 :=
    Nat.mod_eq_of_lt (lt_of_lt_of_le hfit hle)
  simp only [loopBound, uintToInt, hmod, if_pos hfit]

/-- On a 64-bit platform `ReTry = 2^64 - 1` gives the loop bound 0. -/
theorem loopBound_max_uint (env : GoEnv) (c : Client) :
    loopBound { env with uintBits := 64 } { c with ReTry := 18446744073709551615 } = 0 := by
  show uintToInt 64 ((18446744073709551615 + 1) % 2 ^ 64) = 0
  norm_num [uintToInt]

/-- On a 64-bit platform `ReTry = 2^63 - 1` gives the loop bound `-2^63`. -/
theorem loopBound_max_int (env : GoEnv) (c : Client) :
    loopBound { env with uintBits := 64 } { c with ReTry := 9223372036854775807 }
      = -9223372036854775808 := by
  show uintToInt 64 ((9223372036854775807 + 1) % 2 ^ 64) = -9223372036854775808
  norm_num [uintToInt]

/-- When none of the `B + 1` attempts the loop bound allows is accepted, `Send`
performs them all, each followed by a sleep, and returns the last one's pair. -/
theorem Send_all_fail (env : GoEnv) (world : Nat → Attempt) (c : Client) (B : Nat)
    (hB : loopBound env c = ((B + 1 : Nat) : Int))
    (hf : ∀ j, j ≤ B → accepted env world c j = false) :
    c.Send env world =
      { c := c, res := (outcome env world c B).2.1, err := (outcome env world c B).2.2,
        trace := failTrace env world c 0 (B + 1) } := by
  have ht : (loopBound env c).toNat = 0 + (B + 1) := by rw [hB]; simp
  unfold Client.Send
  rw [ht]
  have h := sendLoop_fail env world c B 0 0
    { c := c, res := some {}, err := none, trace := [] } rfl
    (by rw [hB]; push_cast; omega) (fun j _ h2 => hf j (by omega))
  simp only [Nat.zero_add, List.nil_append] at h
  simp only [Nat.zero_add]
  exact h

/-- When attempt number `k` is below the loop bound and is the first accepted
one, `Send` performs attempts `0 .. k`, sleeps after each but the last, and
returns the pair of attempt `k`. -/
theorem Send_first_accept (env : GoEnv) (world : Nat → Attempt) (c : Client) (k : Nat)
    (hk : (k : Int) < loopBound env c)
    (hf : ∀ j, j < k → accepted env world c j = false)
    (ha : accepted env world c k = true) :
    c.Send env world =
      { c := c, res := (outcome env world c k).2.1, err := (outcome env world c k).2.2,
        trace := failTrace env world c 0 k ++ [attemptEvent env world c k] } := by
  obtain ⟨f, hfuel⟩ : ∃ f, (loopBound env c).toNat = f + 1 + k := ⟨(loopBound env c).toNat - 1 - k, by omega⟩
  unfold Client.Send
  rw [hfuel]
  cases k with
  | zero =>
    have h := sendLoop_accept env world c f 0
      { c := c, res := some {}, err := none, trace := [] } rfl hk ha
    simpa [failTrace] using h
  | succ m =>
    have e1 : f + 1 + (m + 1) = (f + 1) + (m + 1) := rfl
    have h := sendLoop_fail env world c m (f + 1) 0
      { c := c, res := some {}, err := none, trace := [] } rfl
      (by omega) (fun j _ h2 => hf j (by omega))
    simp only [Nat.zero_add, List.nil_append] at h
    have h0 : ((0 : Nat) : Int) = 0 := rfl
    rw [h0] at h
    rw [e1, h]
    have h2 := sendLoop_accept env world c f (m + 1)
      { c := c, res := (outcome env world c m).2.1, err := (outcome env world c m).2.2,
        trace := failTrace env world c 0 (m + 1) } rfl hk ha
    exact h2

theorem buildRequest_timeout (env : GoEnv) (w : Attempt) (c : Client) :
    (c.buildRequest env w).1.Timeout = c.Timeout := by
  simp only [Client.buildRequest]
  split <;> rfl

/-- An attempt whose request is built and whose `client.Do` fails on that
request returns the transport error and a nil Response. -/
theorem outcome_transport (env : GoEnv) (world : Nat → Attempt) (c : Client) (j : Nat)
    (msg : String)
    (hnet : ∃ req, ((c.Copy (world j)).buildRequest env (world j)).2 = .ok req ∧
      (world j).Do c.Timeout req = .error msg) :
    (outcome env world c j).2.1 = none ∧
      (outcome env world c j).2.2 = some (Error.transport msg) := by
  obtain ⟨req, hb, hd⟩ := hnet
  have ht : ((c.Copy (world j)).buildRequest env (world j)).1.Timeout = c.Timeout := by
    rw [buildRequest_timeout]; rfl
  simp [outcome, Client.send, hb, ht, hd]

theorem accepted_of_err (env : GoEnv) (world : Nat → Attempt) (c : Client) (j : Nat)
    (e : Error) (h : (outcome env world c j).2.2 = some e) :
    accepted env world c j = false := by
  simp [accepted, h]

/-- An attempt that returns a nil error returns a non-nil Response. -/
theorem send_res_of_ok (env : GoEnv) (w : Attempt) (c : Client)
    (h : (c.send env w).2.2 = none) : ∃ r, (c.send env w).2.1 = some r := by
  simp only [Client.send] at h ⊢
  cases hb : (Client.buildRequest env w c).2 with
  | error e => rw [hb] at h; simp at h
  | ok req =>
    rw [hb] at h
    simp only at h ⊢
    cases hd : w.Do (Client.buildRequest env w c).1.Timeout req with
    | error e => rw [hd] at h; simp at h
    | ok httpRes =>
      rw [hd] at h
      simp only [NewResponse] at h ⊢
      cases hr : httpRes.Body with
      | error e => rw [hr] at h; simp at h
      | ok body => exact ⟨_, rfl⟩

/-- Whenever the loop bound is positive, `Send` makes at least one attempt and
returns the pair of the last attempt it made; it sleeps after every attempt
that is not accepted, the last one included. -/
theorem Send_returns_last_attempt (env : GoEnv) (world : Nat → Attempt) (c : Client)
    (hpos : 0 < loopBound env c) :
    ∃ k : Nat, (k : Int) < loopBound env c ∧
      attempts (c.Send env world).trace = k + 1 ∧
      (c.Send env world).res = (outcome env world c k).2.1 ∧
      (c.Send env world).err = (outcome env world c k).2.2 ∧
      sleeps (c.Send env world).trace = if accepted env world c k then k else k + 1 := by
  by_cases hex : ∃ j : Nat, (j : Int) < loopBound env c ∧ accepted env world c j = true
  · classical
    have hk := Nat.find_spec hex
    have hmin : ∀ j, j < Nat.find hex → accepted env world c j = false := by
      intro j hj
      have h := Nat.find_min hex hj
      have hjlt : (j : Int) < loopBound env c := by omega
      simpa [hjlt] using h
    have hs := Send_first_accept env world c (Nat.find hex) hk.1 hmin hk.2
    refine ⟨Nat.find hex, hk.1, ?_, by rw [hs], by rw [hs], ?_⟩
    · rw [hs, attempts_append, attempts_failTrace]
      simp [attempts, attemptEvent, Event.isAttempt]
    · rw [hs, sleeps_append, sleeps_failTrace, hk.2]
      simp [sleeps, attemptEvent, Event.isSleep]
  · obtain ⟨B, hB⟩ : ∃ B : Nat, loopBound env c = ((B + 1 : Nat) : Int) :=
      ⟨(loopBound env c).toNat - 1, by omega⟩
    have hf : ∀ j, j ≤ B → accepted env world c j = false := by
      intro j hj
      by_contra hne
      exact hex ⟨j, by omega, by simpa using hne⟩
    have hs := Send_all_fail env world c B hB hf
    refine ⟨B, by omega, ?_, by rw [hs], by rw [hs], ?_⟩
    · rw [hs, attempts_failTrace]
    · rw [hs, sleeps_failTrace, hf B (le_refl _)]
      simp

/-! ## Claims about `Send` -/

/-- C1: when `ReTry + 1` fits the machine integer of the loop bound and every
attempt gets as far as the network (its request is constructed) and fails
there with a transport error, `Send` performs exactly `ReTry + 1` attempts, one
after the other (each followed by its sleep), and returns a nil Response with
the transport error of the last, the `(ReTry + 1)`-th, attempt. -/
theorem Send_all_transport_errors (env : GoEnv) (world : Nat → Attempt) (c : Client)
    (e : Nat → String)
    (hfit : c.ReTry + 1 < 2 ^ (env.uintBits - 1))
    (hnet : ∀ j, j ≤ c.ReTry →
      ∃ req, ((c.Copy (world j)).buildRequest env (world j)).2 = .ok req ∧
        (world j).Do c.Timeout req = .error (e j)) :
    attempts (c.Send env world).trace = c.ReTry + 1 ∧
    (c.Send env world).trace = failTrace env world c 0 (c.ReTry + 1) ∧
    (c.Send env world).res = none ∧
    (c.Send env world).err = some (Error.transport (e c.ReTry)) := by
  have hs := Send_all_fail env world c c.ReTry (loopBound_of_fits env c hfit)
    (fun j hj => accepted_of_err env world c j _
      (outcome_transport env world c j (e j) (hnet j hj)).2)
  have ho := outcome_transport env world c c.ReTry (e c.ReTry) (hnet c.ReTry (le_refl _))
  rw [hs]
  exact ⟨attempts_failTrace env world c _ _, rfl, ho.1, ho.2⟩

/-- The demo configuration (`ReTry = 5`) against an endpoint that refuses every
connection: 6 attempts, and the error of the 6th is returned. -/
theorem Send_all_transport_errors_witness :
    attempts (demoClient.Send env64 worldDown).trace = 5 + 1 ∧
    (demoClient.Send env64 worldDown).trace = failTrace env64 worldDown demoClient 0 (5 + 1) ∧
    (demoClient.Send env64 worldDown).res = none ∧
    (demoClient.Send env64 worldDown).err = some (Error.transport "connection refused") :=
  Send_all_transport_errors env64 worldDown demoClient (fun _ => "connection refused")
    (by decide) (fun _ _ => ⟨_, rfl, rfl⟩)

/-- C2: with `ReTry = 2^63 - 1` on a 64-bit platform `k = 1` lies between 1 and
`ReTry + 1` and the first attempt would be accepted (nil error, `ReCheck`
true), yet `Send` performs no attempt and returns the empty placeholder, not
that attempt's Response. -/
theorem Send_skips_accepted_attempt :
    1 ≤ 1 ∧ 1 ≤ wrapClient.ReTry + 1 ∧
    accepted env64 worldCounting wrapClient (1 - 1) = true ∧
    attempts (wrapClient.Send env64 worldCounting).trace = 0 ∧
    attempts (wrapClient.Send env64 worldCounting).trace ≠ 1 ∧
    (wrapClient.Send env64 worldCounting).res = some {} ∧
    (wrapClient.Send env64 worldCounting).res
      ≠ (outcome env64 worldCounting wrapClient (1 - 1)).2.1 := by
  have hb : loopBound env64 wrapClient = -9223372036854775808 :=
    loopBound_max_int env64 (NewClient "http://127.0.0.1:9/" "GET")
  have hs : wrapClient.Send env64 worldCounting =
      { c := wrapClient, res := some {}, err := none, trace := [] } := by
    unfold Client.Send
    rw [hb]
    rfl
  rw [hs]
  refine ⟨by decide, by decide, by decide, rfl, by decide, rfl, by decide⟩

/-- C2, amended: for every configuration whose `ReTry + 1` fits the machine
integer of the loop bound and every `1 ≤ k ≤ ReTry + 1`, when the `k`-th
attempt is the first that returns a nil error and a Response on which
`ReCheck` is true, `Send` performs exactly `k` attempts, the `k`-th being the
last thing it does, and returns that attempt's (non-nil) Response with a nil
error. -/
theorem Send_stops_at_first_accepted (env : GoEnv) (world : Nat → Attempt) (c : Client)
    (k : Nat) (hfit : c.ReTry + 1 < 2 ^ (env.uintBits - 1))
    (hk1 : 1 ≤ k) (hk : k ≤ c.ReTry + 1)
    (hfirst : ∀ j, j + 1 < k → accepted env world c j = false)
    (hacc : accepted env world c (k - 1) = true) :
    attempts (c.Send env world).trace = k ∧
    (c.Send env world).trace =
      failTrace env world c 0 (k - 1) ++ [attemptEvent env world c (k - 1)] ∧
    (c.Send env world).res = (outcome env world c (k - 1)).2.1 ∧
    (∃ r, (c.Send env world).res = some r) ∧
    (c.Send env world).err = none := by
  have hbound := loopBound_of_fits env c hfit
  have hs := Send_first_accept env world c (k - 1) (by rw [hbound]; omega)
    (fun j hj => hfirst j (by omega)) hacc
  have herr : (outcome env world c (k - 1)).2.2 = none := by
    have h := hacc
    simp only [accepted, Bool.and_eq_true, Option.isNone_iff_eq_none] at h
    exact h.1
  rw [hs]
  refine ⟨?_, rfl, rfl, send_res_of_ok env _ _ herr, herr⟩
  rw [attempts_append, attempts_failTrace]
  simp only [attempts, attemptEvent, List.filter, Event.isAttempt, List.length]
  omega

/-- With a predicate that is false until the third attempt, `Send` makes
exactly 3 attempts and returns the third response with a nil error. -/
theorem Send_stops_at_first_accepted_witness :
    attempts (pickyClient.Send env64 worldCounting).trace = 3 ∧
    (pickyClient.Send env64 worldCounting).trace =
      failTrace env64 worldCounting pickyClient 0 (3 - 1) ++
        [attemptEvent env64 worldCounting pickyClient (3 - 1)] ∧
    (pickyClient.Send env64 worldCounting).res =
      (outcome env64 worldCounting pickyClient (3 - 1)).2.1 ∧
    (∃ r, (pickyClient.Send env64 worldCounting).res = some r) ∧
    (pickyClient.Send env64 worldCounting).err = none :=
  Send_stops_at_first_accepted env64 worldCounting pickyClient 3 (by decide) (by decide)
    (by decide)
    (by
      intro j hj
      have hj2 : j < 2 := by omega
      interval_cases j <;> decide)
    (by decide)

/-- C3: on a 64-bit platform with `ReTry` the largest `uint`, `c.ReTry+1` wraps
to 0, the loop body never runs, and `Send` returns the initial placeholder (an
empty Response and a nil error) without a single attempt. The same happens
for `ReTry = 2^63 - 1`, where `int(c.ReTry+1)` is negative. -/
theorem Send_retry_wraps (env : GoEnv) (world : Nat → Attempt) (c : Client) :
    (Client.Send { env with uintBits := 64 } world
        { c with ReTry := 18446744073709551615 }).trace = [] ∧
    (Client.Send { env with uintBits := 64 } world
        { c with ReTry := 18446744073709551615 }).res = some {} ∧
    (Client.Send { env with uintBits := 64 } world
        { c with ReTry := 18446744073709551615 }).err = none ∧
    (Client.Send { env with uintBits := 64 } world
        { c with ReTry := 9223372036854775807 }).trace = [] ∧
    (Client.Send { env with uintBits := 64 } world
        { c with ReTry := 9223372036854775807 }).res = some {} ∧
    (Client.Send { env with uintBits := 64 } world
        { c with ReTry := 9223372036854775807 }).err = none := by
  unfold Client.Send
  rw [loopBound_max_uint, loopBound_max_int]
  exact ⟨rfl, rfl, rfl, rfl, rfl, rfl⟩

/-- C5: with `ReTry = 0` against an endpoint that refuses the connection, `Send`
makes its single attempt and then sleeps 50 ms before returning the error: the
trace is one attempt followed by one sleep. -/
theorem Send_sleeps_after_last_attempt :
    (Client.Send env64 worldDown (NewClient "http://127.0.0.1:9/" "GET")).trace.map Event.isSleep
      = [false, true] ∧
    attempts (Client.Send env64 worldDown (NewClient "http://127.0.0.1:9/" "GET")).trace = 1 ∧
    sleeps (Client.Send env64 worldDown (NewClient "http://127.0.0.1:9/" "GET")).trace = 1 ∧
    (Client.Send env64 worldDown (NewClient "http://127.0.0.1:9/" "GET")).err
      = some (Error.transport "connection refused") := by
  decide

theorem Header.Set_cons_ne (canon : String → String) (e : String × List String) (h : Header)
    (k v : String) (hne : (e.1 == canon k) = false) :
    Header.Set canon (e :: h) k v = e :: Header.Set canon h k v := by
  have hne2 : e.1 ≠ canon k := by simpa using hne
  unfold Header.Set
  by_cases hany : (h.any (fun e => e.1 == canon k)) = true
  · simp [hne, hne2, hany]
  · simp [hne, hne2, hany]

/-- After `Set`, the canonical key holds exactly the one value set. -/
theorem Header.find_Set (canon : String → String) (h : Header) (k v : String) :
    (Header.Set canon h k v).find? (fun e => e.1 == canon k) = some (canon k, [v]) := by
  induction h with
  | nil => simp [Header.Set]
  | cons e h ih =>
    by_cases he : (e.1 == canon k) = true
    · obtain ⟨a, vs⟩ := e
      have he2 : a = canon k := by simpa using he
      subst he2
      simp [Header.Set]
    · have hne : (e.1 == canon k) = false := by simpa using he
      rw [Header.Set_cons_ne canon e h k v hne, List.find?_cons, hne]
      exact ih

theorem Header.Get_Set (canon : String → String) (h : Header) (k v : String) :
    Header.Get canon (Header.Set canon h k v) k = v := by
  simp [Header.Get, Header.find_Set]

/-- C7: a raw body sent with the caller's header `Content-Type: application/json`
leaves `send` with the raw string as its body but with the `Content-Type`
header forced to the empty string, not to the caller's value. -/
theorem buildRequest_overrides_content_type :
    jsonClient.Headers = [("Content-Type", "application/json")] ∧
    (jsonClient.buildRequest env64 (worldDown 0)).2 =
      .ok { Method := "POST", Url := "http://127.0.0.1:9/", Body := "\x7b\x7d",
            Header := [("Content-Type", [""])] } ∧
    Header.Get env64.canon [("Content-Type", [""])] "Content-Type" = "" ∧
    Header.Get env64.canon [("Content-Type", [""])] "Content-Type" ≠ "application/json" := by
  refine ⟨rfl, rfl, by decide, by decide⟩

/-- C7, amended: for every raw body (content type neither url-encoded nor
multipart, including unset) whose request can be constructed, the request
`send` hands to the transport carries `StrData` unchanged as its body, and its
`Content-Type` header is the empty string whatever the caller put in `Headers`. -/
theorem buildRequest_raw (env : GoEnv) (w : Attempt) (c : Client)
    (h1 : c.Body.ContentType ≠ Urlencoded) (h2 : c.Body.ContentType ≠ FormData)
    (hv : env.newRequestError c.Method (c.getQueryUrl w.linkQuery) = none) :
    ∃ req, (c.buildRequest env w).2 = .ok req ∧ req.Body = c.Body.StrData ∧
      Header.Get env.canon req.Header "Content-Type" = "" ∧
      req.Header.find? (fun e => e.1 == env.canon "Content-Type")
        = some (env.canon "Content-Type", [""]) := by
  have hsb : c.serializeBody env w =
      ({ c with Body := { c.Body with ContentType := "" } }, c.Body.StrData) := by
    simp [Client.serializeBody, h1, h2]
  simp only [Client.buildRequest, hsb, hv]
  exact ⟨_, rfl, rfl, Header.Get_Set _ _ _ _, Header.find_Set _ _ _ _⟩

/-- The JSON configuration: the body is the raw string and the outgoing
`Content-Type` is empty although the caller set `application/json`. -/
theorem buildRequest_raw_witness :
    ∃ req, (jsonClient.buildRequest env64 (worldDown 0)).2 = .ok req ∧
      req.Body = jsonClient.Body.StrData ∧
      Header.Get env64.canon req.Header "Content-Type" = "" ∧
      req.Header.find? (fun e => e.1 == env64.canon "Content-Type")
        = some (env64.canon "Content-Type", [""]) :=
  buildRequest_raw env64 (worldDown 0) jsonClient (by decide) (by decide) rfl

/-! ## Isolation of the attempts -/

theorem Data.set_fresh (d : Data) (k v : String) (hk : k ∉ d.map Prod.fst) :
    Data.set d k v = d ++ [(k, v)] := by
  have hany : (d.any (fun e => e.1 == k)) = false := by
    rw [List.any_eq_false]
    intro e he hek
    have : e.1 = k := by simpa using hek
    exact hk (this ▸ List.mem_map_of_mem Prod.fst he)
  simp [Data.set, hany]

theorem foldl_set_fresh (l : Data) :
    ∀ acc : Data, Data.WF (acc ++ l) →
      l.foldl (fun newData kv => Data.set newData kv.1 kv.2) acc = acc ++ l := by
  induction l with
  | nil => intro acc _; simp
  | cons a l ih =>
    intro acc hwf
    have hmid : a.1 ∉ acc.map Prod.fst := by
      unfold Data.WF at hwf
      rw [List.map_append, List.map_cons] at hwf
      have h := (List.nodup_cons.mp (List.nodup_middle.mp hwf)).1
      intro hmem
      exact h (List.mem_append_left _ hmem)
    rw [List.foldl_cons, Data.set_fresh acc a.1 a.2 hmid]
    have hwf2 : Data.WF ((acc ++ [(a.1, a.2)]) ++ l) := by
      simpa [List.append_assoc] using hwf
    rw [ih _ hwf2]
    simp [List.append_assoc]

/-- Copying a well-formed map gives a map with the same entries. -/
theorem Data.Copy_perm (rng : RangeOrder) (d : Data) (hwf : Data.WF d) :
    (Data.Copy rng d).Perm d := by
  have hwf2 : Data.WF ([] ++ rng.order d) := by
    unfold Data.WF at hwf ⊢
    rw [List.nil_append]
    exact ((rng.perm d).map Prod.fst).nodup_iff.mpr hwf
  unfold Data.Copy
  rw [foldl_set_fresh _ [] hwf2]
  exact rng.perm d

/-- The receiver `send` leaves behind is the one `serializeBody` leaves behind. -/
theorem send_fst (env : GoEnv) (w : Attempt) (c : Client) :
    (c.send env w).1 = (c.serializeBody env w).1 := by
  have hb : (c.buildRequest env w).1 = (c.serializeBody env w).1 := by
    simp only [Client.buildRequest]
    split <;> rfl
  simp only [Client.send]
  split
  · exact hb
  · split
    · exact hb
    · exact hb

/-- Every entry of the trace is a sleep or the attempt of some iteration below
the loop bound, made on a fresh copy of the receiver. -/
theorem sendLoop_trace (env : GoEnv) (world : Nat → Attempt) (c : Client) :
    ∀ (fuel n : Nat) (st : SendState), st.c = c →
      (∀ ev ∈ st.trace, (∃ d, ev = Event.sleep d) ∨
        ∃ j : Nat, (j : Int) < loopBound env c ∧ ev = attemptEvent env world c j) →
      ∀ ev ∈ (Client.sendLoop env world fuel (n : Int) st).trace, (∃ d, ev = Event.sleep d) ∨
        ∃ j : Nat, (j : Int) < loopBound env c ∧ ev = attemptEvent env world c j := by
  intro fuel
  induction fuel with
  | zero => intro n st _ h; exact h
  | succ f ih =>
    intro n st hc h
    rw [sendLoop_succ, sendStep_eq, hc]
    by_cases hlt : (n : Int) < loopBound env c
    · rw [if_pos hlt]
      by_cases ha : accepted env world c n = true
      · simp only [ha, if_true]
        intro ev hev
        rcases List.mem_append.mp hev with h1 | h1
        · exact h ev h1
        · exact Or.inr ⟨n, hlt, by simpa using h1⟩
      · have ha2 : accepted env world c n = false := by simpa using ha
        simp only [ha2, Bool.false_eq_true, if_false]
        have e2 : ((n : Int) + 1) = ((n + 1 : Nat) : Int) := by push_cast; rfl
        rw [e2]
        apply ih (n + 1) _ rfl
        intro ev hev
        rcases List.mem_append.mp hev with h1 | h1
        · rcases List.mem_append.mp h1 with h2 | h2
          · exact h ev h2
          · exact Or.inr ⟨n, hlt, by simpa using h2⟩
        · exact Or.inl ⟨_, by simpa using h1⟩
    · rw [if_neg hlt]
      exact h

/-- C10: `Send` leaves the receiver as it found it, and every attempt in its
trace starts from a configuration whose URL, method, query parameters,
headers, body, timeout, retry count and predicate are the receiver's (maps
compared by their entries) and ends as `send` on that configuration leaves
it. So for a multipart configuration every attempt is serialized by the
multipart writer and ends with the writer's content type, which never reaches
the next attempt. -/
theorem Send_attempts_isolated (env : GoEnv) (world : Nat → Attempt) (c : Client)
    (hq : Data.WF c.QueryParams) (hh : Data.WF c.Headers) (hd : Data.WF c.Body.Data) :
    (c.Send env world).c = c ∧
    ∀ i start finish res err, Event.attempt i start finish res err ∈ (c.Send env world).trace →
      (start.Url = c.Url ∧ start.Method = c.Method ∧
        start.QueryParams.Perm c.QueryParams ∧ start.Headers.Perm c.Headers ∧
        start.Body.ContentType = c.Body.ContentType ∧ start.Body.Data.Perm c.Body.Data ∧
        start.Body.StrData = c.Body.StrData ∧ start.Timeout = c.Timeout ∧
        start.ReTry = c.ReTry ∧ start.ReCheck = c.ReCheck) ∧
      (finish, res, err) = start.send env (world i.toNat) ∧
      (c.Body.ContentType = FormData →
        start.serializeBody env (world i.toNat) =
          ({ start with Body := { start.Body with
                ContentType := env.formDataContentType (world i.toNat).boundary } },
            env.multipartBody (world i.toNat).boundary
              ((world i.toNat).bodyData.order start.Body.Data)) ∧
        finish.Body.ContentType = env.formDataContentType (world i.toNat).boundary) := by
  refine ⟨sendLoop_c env world _ _ _, ?_⟩
  intro i start finish res err hmem
  have h0 : ((0 : Nat) : Int) = 0 := rfl
  have hinv := sendLoop_trace env world c (loopBound env c).toNat 0
    { c := c, res := some {}, err := none, trace := [] } rfl (by simp)
    (Event.attempt i start finish res err) (by rw [h0]; exact hmem)
  rcases hinv with ⟨d, hd2⟩ | ⟨j, _, hj⟩
  · cases hd2
  · simp only [attemptEvent, Event.attempt.injEq] at hj
    obtain ⟨hi, hstart, hfin, hres, herr⟩ := hj
    subst hi
    have hsend : (finish, res, err) = start.send env (world j) := by
      rw [hfin, hres, herr, hstart]; rfl
    have hct : start.Body.ContentType = c.Body.ContentType := by rw [hstart]; rfl
    refine ⟨⟨by rw [hstart]; rfl, by rw [hstart]; rfl, ?_, ?_, hct, ?_, by rw [hstart]; rfl,
      by rw [hstart]; rfl, by rw [hstart]; rfl, by rw [hstart]; rfl⟩, ?_, ?_⟩
    · rw [hstart]; exact Data.Copy_perm _ _ hq
    · rw [hstart]; exact Data.Copy_perm _ _ hh
    · rw [hstart]; exact Data.Copy_perm _ _ hd
    · simpa using hsend
    · intro hform
      have hne : ¬ (FormData = Urlencoded) := by decide
      have hsb : start.serializeBody env (world j) =
          ({ start with Body := { start.Body with
                ContentType := env.formDataContentType (world j).boundary } },
            env.multipartBody (world j).boundary
              ((world j).bodyData.order start.Body.Data)) := by
        simp [Client.serializeBody, hct, hform, hne]
      have hf1 : finish = (start.send env (world j)).1 := by rw [← hsend]
      simp only [Int.toNat_ofNat]
      refine ⟨hsb, ?_⟩
      rw [hf1, send_fst, hsb]

/-- The demo configuration (multipart, `ReTry = 5`) against a refusing endpoint. -/
theorem Send_attempts_isolated_witness :
    (demoClient.Send env64 worldDown).c = demoClient ∧
    ∀ i start finish res err,
      Event.attempt i start finish res err ∈ (demoClient.Send env64 worldDown).trace →
      (start.Url = demoClient.Url ∧ start.Method = demoClient.Method ∧
        start.QueryParams.Perm demoClient.QueryParams ∧ start.Headers.Perm demoClient.Headers ∧
        start.Body.ContentType = demoClient.Body.ContentType ∧
        start.Body.Data.Perm demoClient.Body.Data ∧
        start.Body.StrData = demoClient.Body.StrData ∧ start.Timeout = demoClient.Timeout ∧
        start.ReTry = demoClient.ReTry ∧ start.ReCheck = demoClient.ReCheck) ∧
      (finish, res, err) = start.send env64 (worldDown i.toNat) ∧
      (demoClient.Body.ContentType = FormData →
        start.serializeBody env64 (worldDown i.toNat) =
          ({ start with Body := { start.Body with
                ContentType := env64.formDataContentType (worldDown i.toNat).boundary } },
            env64.multipartBody (worldDown i.toNat).boundary
              ((worldDown i.toNat).bodyData.order start.Body.Data)) ∧
        finish.Body.ContentType = env64.formDataContentType (worldDown i.toNat).boundary) :=
  Send_attempts_isolated env64 worldDown demoClient (by decide) (by decide) (by decide)

end HttpUtil
